import Mathlib

/-!
Verification development for the publication engine of
`scripts/publisher_logic.py` (courier vacancy publisher).

The Python source is shallowly embedded below:

* `PyStr` models a nullable text column of a fetched row (rows come from a
  `select("*")` query, so every key is present and a SQL NULL arrives as
  Python `None`); `pyCoerceStr` models Python `str(...)` applied to such a
  value (`str(None) = "None"`).
* String helpers (`pyStrip`, `pySlice`, `pyLower`, `pyFmtThousands`) model
  the Python string operations used by the source (`.strip()`, slicing
  `[:n]`, `.lower()`, and `f"{n:,}".replace(",", " ")`).  They are written
  by structural recursion over the character list so that all definitions
  evaluate inside the kernel.
* `get_vacancies_for_publication` embeds the in-memory part of the selector
  (the two filtering passes over `response.data`); the fetched rows are a
  parameter, standing for the result of the external store query.
* `format_salary_display` and `format_post_with_vacancies` embed the
  renderer; the latter is given explicit fuel because the Python recursion
  is not structurally decreasing (`vacancies[:5]`), and `none` models a
  Python `RecursionError`.
* `mark_vacancies_as_posted`, `publish_city_vacancies` and
  `main_publisher_loop` embed the per-city publication procedure and the
  per-city loop of `main_publisher`; external effects (send success, store
  update success, a raised exception) are boolean/function parameters and
  the set of posted ids is threaded explicitly.
-/

/-- A nullable text value of a fetched row: SQL NULL or a string. -/
inductive PyStr where
  | null : PyStr
  | str : String → PyStr
  deriving DecidableEq, Repr

/-- Python `str(x)` for a nullable text value: `str(None)` is `"None"`. -/
def pyCoerceStr : PyStr → String
  | PyStr.null => "None"
  | PyStr.str s => s

/-- Python truthiness of a nullable text value (`if employer:`). -/
def pyTruthy : PyStr → Bool
  | PyStr.null => false
  | PyStr.str s => !(s == "")

/-- Characters stripped by Python `str.strip()` (ASCII whitespace). -/
def isPySpace (c : Char) : Bool :=
  c = ' ' || c = '\t' || c = '\n' || c = '\r' || c = '\x0b' || c = '\x0c'

/-- Python `s.strip()`: drop whitespace from both ends. -/
def pyStrip (s : String) : String :=
  String.mk (((s.data.dropWhile isPySpace).reverse.dropWhile isPySpace).reverse)

/-- Python `s[:n]`: the first `n` characters of `s`. -/
def pySlice (n : Nat) (s : String) : String :=
  String.mk (s.data.take n)

/-- Lower-casing of one character as Python `str.lower()` does for the
alphabets appearing in the source (ASCII and Cyrillic). -/
def pyLowerChar (c : Char) : Char :=
  if 0x410 ≤ c.toNat ∧ c.toNat ≤ 0x42F then Char.ofNat (c.toNat + 0x20)
  else if c.toNat = 0x401 then Char.ofNat 0x451
  else if 0x41 ≤ c.toNat ∧ c.toNat ≤ 0x5A then Char.ofNat (c.toNat + 0x20)
  else c

/-- Python `s.lower()` over the alphabets used by the source. -/
def pyLower (s : String) : String :=
  String.mk (s.data.map pyLowerChar)

/-- Insert a space after every third character of a reversed digit list;
helper for the thousands grouping of Python `f"{n:,}"`. -/
def group3 : List Char → List Char
  | a :: b :: c :: d :: rest => a :: b :: c :: ' ' :: group3 (d :: rest)
  | l => l

/-- Python `f"{n:,}".replace(",", " ")` for a natural number. -/
def pyFmtThousands (n : Nat) : String :=
  String.mk ((group3 (toString n).data.reverse).reverse)

/-- Python `f"{i:,}".replace(",", " ")` for an integer. -/
def fmtMoney (i : Int) : String :=
  if i < 0 then "-" ++ pyFmtThousands i.natAbs else pyFmtThousands i.toNat

/-- One fetched vacancy row (the columns used by the publication engine). -/
structure Vacancy where
  id : Int
  employer : PyStr
  title : PyStr
  external_url : String
  salary_from_net : Option Int
  salary_to_net : Option Int
  salary_period_name : Option String
  salary_frequency_name : Option String
  schedule_name : Option String
  experience_name : Option String
  deriving DecidableEq, Repr

/-- Python truthiness of an optional number field (`if salary_from:`);
`None` and `0` are falsy. -/
def optIntTruthy : Option Int → Bool
  | none => false
  | some n => !(n == 0)

/-- Python truthiness of an optional string field; `None` and `""` are falsy. -/
def optStrTruthy : Option String → Bool
  | none => false
  | some s => !(s == "")

/-- The stripped employer of a row: `str(vacancy.get("employer", "")).strip()`. -/
def empOf (v : Vacancy) : String := pyStrip (pyCoerceStr v.employer)

/-- The stripped title of a row: `str(vacancy.get("title", "")).strip()`. -/
def ttlOf (v : Vacancy) : String := pyStrip (pyCoerceStr v.title)

/-- The coarse duplicate key `f"{employer}_{title[:60]}"` of a row. -/
def vkey (v : Vacancy) : String := empOf v ++ "_" ++ pySlice 60 (ttlOf v)

/-- A row is skipped when its stripped employer or title is empty
(`if not employer or not title: continue`). -/
def blankRow (v : Vacancy) : Bool := empOf v == "" || ttlOf v == ""

/-- Pass 1 of `get_vacancies_for_publication`: walk the fetched rows,
skipping blank rows, already-seen duplicate keys and employers at the
per-company cap; append the row otherwise and stop once the running count
reaches the target (the bound is checked after the append).  Returns the
rows taken, the final seen-key list and the final running count. -/
def pass1 (target cap : Int) :
    List Vacancy → List String → (String → Nat) → Nat →
      List Vacancy × List String × Nat
  | [], seen, _, n => ([], seen, n)
  | v :: rest, seen, ctr, n =>
    if blankRow v then pass1 target cap rest seen ctr n
    else if vkey v ∈ seen then pass1 target cap rest seen ctr n
    else if cap ≤ (ctr (empOf v) : Int) then pass1 target cap rest seen ctr n
    else
      let seen' := vkey v :: seen
      let ctr' := fun e => if e = empOf v then ctr (empOf v) + 1 else ctr e
      if target ≤ ((n + 1 : Nat) : Int) then ([v], seen', n + 1)
      else
        let r := pass1 target cap rest seen' ctr' (n + 1)
        (v :: r.1, r.2.1, r.2.2)

/-- Pass 2 of `get_vacancies_for_publication`: rescan the remaining rows
without the per-company cap, still skipping blank rows and seen keys,
stopping once the running count reaches the target. -/
def pass2 (target : Int) :
    List Vacancy → List String → Nat → List Vacancy
  | [], _, _ => []
  | v :: rest, seen, n =>
    if blankRow v then pass2 target rest seen n
    else if vkey v ∈ seen then pass2 target rest seen n
    else if target ≤ ((n + 1 : Nat) : Int) then [v]
    else v :: pass2 target rest (vkey v :: seen) (n + 1)

/-- The in-memory part of `get_vacancies_for_publication`: `data` is
`response.data`, the rows fetched for the city (already filtered and
ordered by the store query).  An empty fetch returns `[]`; otherwise pass 1
runs with the per-company cap, and when it fell short of the target while
rows remain, pass 2 rescans from index `len(filtered_vacancies)` onward
and its additions are appended. -/
def get_vacancies_for_publication (data : List Vacancy) (target cap : Int) :
    List Vacancy :=
  if data.isEmpty then []
  else
    let r := pass1 target cap data [] (fun _ => 0) 0
    if (r.2.2 : Int) < target ∧ r.2.2 < data.length then
      r.1 ++ pass2 target (data.drop r.2.2) r.2.1 r.2.2
    else r.1

/-- The parenthesized payment-period suffix of `format_salary_display`:
appended only when `salary_period_name` is truthy; inside it the frequency
is appended when truthy and not literally `"не указано"` (case-insensitive),
nothing is added when it is literally `"не указано"`, and the literal
`", не указано"` is added when the frequency is `None` or empty. -/
def periodSuffix (v : Vacancy) : String :=
  if optStrTruthy v.salary_period_name then
    let p := v.salary_period_name.getD ""
    let f := v.salary_frequency_name.getD ""
    let mid :=
      if optStrTruthy v.salary_frequency_name ∧ pyLower f ≠ "не указано" then
        ", " ++ f
      else if optStrTruthy v.salary_frequency_name ∧ pyLower f = "не указано" then
        ""
      else ", не указано"
    " (" ++ p ++ mid ++ ")"
  else ""

/-- Embedding of `format_salary_display`: the `if/elif/elif/else` chain over
the truthiness of the two bounds, with the early return `"не указана"` when
neither bound is truthy (skipping the period suffix). -/
def format_salary_display (v : Vacancy) : String :=
  let sf := v.salary_from_net
  let st := v.salary_to_net
  if optIntTruthy sf ∧ optIntTruthy st then
    (if sf = st then fmtMoney (sf.getD 0) ++ " ₽"
     else "от " ++ fmtMoney (sf.getD 0) ++ " до " ++ fmtMoney (st.getD 0) ++ " ₽")
      ++ periodSuffix v
  else if optIntTruthy sf then ("от " ++ fmtMoney (sf.getD 0) ++ " ₽") ++ periodSuffix v
  else if optIntTruthy st then (fmtMoney (st.getD 0) ++ " ₽") ++ periodSuffix v
  else "не указана"

/-- The configured referral link (`PUBLISH_CONFIG["formatting"]["referral_link"]`). -/
def referral_link : String := "https://ya.cc/8UiUqj  "

/-- The fixed call-to-action block inserted after the header when the
referral link is configured. -/
def cta_block : String :=
  "\n💡 <b>Хочешь работать на себя?</b>\n"
    ++ "✅ Работай на себя — сам выбираешь график\n"
    ++ "✅ Заработок от 5000₽ в день с первого дня\n"
    ++ "✅ Выплаты ежедневно на карту\n"
    ++ "✅ Работаешь в своём районе — без долгих поездок\n"
    ++ "✅ Бонусы для новичков\n\n"
    ++ "🚀 <a href='" ++ referral_link ++ "'><b>Начать работать на себя →</b></a>\n"
    ++ "<i>Начни зарабатывать уже завтра!</i>\n\n"

/-- One vacancy section of the post: numbered linked title, optional
employer line, salary line, optional schedule and experience lines, and a
divider after every entry but the last (`i` is 1-based, `total` is the
number of entries). -/
def vacancy_section (i total : Nat) (v : Vacancy) : String :=
  "<b>" ++ toString i ++ ". <a href='" ++ v.external_url ++ "'>"
      ++ pyCoerceStr v.title ++ "</a></b>\n\n"
    ++ (if pyTruthy v.employer ∧ pyStrip (pyCoerceStr v.employer) ≠ "" then
          "🏢 " ++ pyCoerceStr v.employer ++ "\n"
        else "")
    ++ "💰 " ++ format_salary_display v ++ "\n"
    ++ (match v.schedule_name with
        | some s => if s ≠ "" ∧ pyStrip s ≠ "" then "🕒 " ++ s ++ "\n" else ""
        | none => "")
    ++ (match v.experience_name with
        | some s => if s ≠ "" ∧ pyStrip s ≠ "" then "📊 " ++ s ++ "\n" else ""
        | none => "")
    ++ (if i < total then "\n---\n\n" else "")

/-- The concatenated vacancy sections, numbering entries from `i`. -/
def vacancy_sections (total : Nat) : Nat → List Vacancy → String
  | _, [] => ""
  | i, v :: rest => vacancy_section i total v ++ vacancy_sections total (i + 1) rest

/-- The assembled post before the size guard: header naming the city, the
call-to-action block (the referral link is configured, hence truthy), then
the vacancy sections. -/
def assemble_post (vacancies : List Vacancy) (city_name : String) : String :=
  "<b>🚀 Новые вакансии курьеров в г. " ++ city_name ++ "</b>\n\n"
    ++ (if referral_link ≠ "" then cta_block else "")
    ++ vacancy_sections vacancies.length 1 vacancies

/-- Embedding of `format_post_with_vacancies`.  The Python function, when
the assembled text exceeds 4096 characters, calls itself on
`vacancies[:5]`; that recursion is not structurally decreasing (for five or
fewer entries `vacancies[:5]` is the whole list again), so the embedding
takes explicit fuel and `none` models the Python `RecursionError` raised
when the recursion never finishes. -/
def format_post_with_vacancies (fuel : Nat) (vacancies : List Vacancy)
    (city_name : String) : Option (String × Option String) :=
  if vacancies.isEmpty then some ("Нет новых вакансий для публикации", none)
  else
    match fuel with
    | 0 => none
    | fuel' + 1 =>
      let post_text := assemble_post vacancies city_name
      if 4096 < post_text.length then
        format_post_with_vacancies fuel' (vacancies.take 5) city_name
      else some (post_text, some referral_link)

/-- Embedding of `mark_vacancies_as_posted`: an empty id list returns
success without touching the store; otherwise the batch update either
flips all the given ids (success) or leaves the store unchanged (failure,
modelled by the `markOk` flag of the run). -/
def mark_vacancies_as_posted (markOk : Bool) (ids : List Int)
    (posted : List Int) : Bool × List Int :=
  if ids.isEmpty then (true, posted)
  else if markOk then (true, posted ++ ids) else (false, posted)

/-- The external circumstances of one city during one run: whether the city
slug is configured, the city display name, the selected vacancies (the
result of `get_vacancies_for_publication`, whose own query errors already
surface as an empty list), and whether the send and the batch update
succeed. -/
structure CityEnv where
  cityFound : Bool
  name : String
  vacancies : List Vacancy
  sendOk : Bool
  markOk : Bool

/-- Embedding of `publish_city_vacancies`: unknown city fails; no vacancies
is a successful skip; a render that never terminates raises and is caught
by the surrounding `except` (failure, count 0); a failed send fails the
city with count 0 and no store mutation; after a successful send the
vacancies are marked and the city succeeds with the full count whether or
not the marking succeeded.  Returns `((success, count), posted-ids)`. -/
def publish_city_vacancies (fuel : Nat) (env : CityEnv)
    (posted : List Int) : (Bool × Nat) × List Int :=
  if env.cityFound = false then ((false, 0), posted)
  else if env.vacancies.isEmpty then ((true, 0), posted)
  else
    match format_post_with_vacancies fuel env.vacancies env.name with
    | none => ((false, 0), posted)
    | some _ =>
      if env.sendOk = false then ((false, 0), posted)
      else
        let ids := env.vacancies.map (fun v => v.id)
        let m := mark_vacancies_as_posted env.markOk ids posted
        ((true, env.vacancies.length), m.2)

/-- The per-city loop of `main_publisher`: `step c` is the outcome of
`publish_city_vacancies` for city `c`, or `none` when the iteration body
raised (the `except` branch records count 0 and clears the overall
success).  Every configured city is visited; no outcome aborts the loop.
Returns the results list (city, count) in iteration order and the overall
success flag. -/
def main_publisher_loop (step : String → Option (Bool × Nat)) :
    List String → List (String × Nat) × Bool
  | [] => ([], true)
  | c :: rest =>
    match step c with
    | some sn =>
      let r := main_publisher_loop step rest
      ((c, sn.2) :: r.1, sn.1 && r.2)
    | none =>
      let r := main_publisher_loop step rest
      ((c, 0) :: r.1, false && r.2)

/-- The success flag of a per-city outcome: a raised iteration is a failure. -/
def cityOK : Option (Bool × Nat) → Bool
  | none => false
  | some sn => sn.1

/-- The recorded count of a per-city outcome: a raised iteration records 0. -/
def cityCount : Option (Bool × Nat) → Nat
  | none => 0
  | some sn => sn.2

/-- The intended placement of two selected rows per the salary-ordering
property: a salary-bearing row may precede anything no higher-paid, a row
without salary may not precede a salary-bearing one. -/
def salaryOrderB (a b : Vacancy) : Bool :=
  match a.salary_to_net, b.salary_to_net with
  | some x, some y => y ≤ x
  | some _, none => true
  | none, none => true
  | none, some _ => false

/-- The frequency part of the amended salary-display case analysis: the
literal `", не указано"` when the frequency field is null or empty, nothing
when it is literally `"не указано"` up to case, the frequency otherwise. -/
def freq_suffix_spec : Option String → String
  | none => ", не указано"
  | some f =>
    if f = "" then ", не указано"
    else if pyLower f = "не указано" then ""
    else ", " ++ f

/-- The period part of the amended salary-display case analysis: a
parenthesized qualifier only when the period field is present and
non-empty. -/
def period_suffix_spec (v : Vacancy) : String :=
  match v.salary_period_name with
  | none => ""
  | some p =>
    if p = "" then ""
    else " (" ++ p ++ freq_suffix_spec v.salary_frequency_name ++ ")"

/-- The amended salary-display case analysis, written from the corrected
claim: a bound counts as present only when non-null and non-zero (Python
truthiness); both present and equal gives a single value, both present and
different a range, one present that bound, neither the marker
`"не указана"` with no qualifiers; qualifiers follow the period and
frequency rules of `period_suffix_spec`. -/
def format_salary_display_spec (v : Vacancy) : String :=
  match v.salary_from_net, v.salary_to_net with
  | some f, some t =>
    if f ≠ 0 ∧ t ≠ 0 then
      (if f = t then fmtMoney f ++ " ₽"
       else "от " ++ fmtMoney f ++ " до " ++ fmtMoney t ++ " ₽")
        ++ period_suffix_spec v
    else if f ≠ 0 then ("от " ++ fmtMoney f ++ " ₽") ++ period_suffix_spec v
    else if t ≠ 0 then (fmtMoney t ++ " ₽") ++ period_suffix_spec v
    else "не указана"
  | some f, none =>
    if f ≠ 0 then ("от " ++ fmtMoney f ++ " ₽") ++ period_suffix_spec v
    else "не указана"
  | none, some t =>
    if t ≠ 0 then (fmtMoney t ++ " ₽") ++ period_suffix_spec v
    else "не указана"
  | none, none => "не указана"

/-- A listing fixture with the given id, employer, title and upper salary
bound; the remaining fields are absent. -/
def mkListing (i : Int) (e t : String) (sal : Option Int) : Vacancy :=
  { id := i, employer := PyStr.str e, title := PyStr.str t, external_url := "u",
    salary_from_net := none, salary_to_net := sal, salary_period_name := none,
    salary_frequency_name := none, schedule_name := none,
    experience_name := none }

/-- A fetched row whose employer is blank after stripping. -/
def blankEmployerListing : Vacancy := mkListing 1 "" "t" (some 5)

/-- A well-formed fetched row. -/
def goodListing : Vacancy := mkListing 1 "A" "t" (some 5)

/-- A fetched pool sorted descending by salary on which pass 1 skips the
third and fourth rows at the employer cap and pass 2 then appends the
fourth row after the fifth, breaking the descending order. -/
def sortedPool5 : List Vacancy :=
  [mkListing 0 "A" "t0" (some 100), mkListing 1 "A" "t1" (some 90),
   mkListing 2 "A" "t2" (some 80), mkListing 3 "A" "t3" (some 70),
   mkListing 4 "B" "t4" (some 60)]

/-- A two-row sorted pool that pass 1 serves completely. -/
def sortedPool2 : List Vacancy :=
  [mkListing 0 "A" "t0" (some 100), mkListing 1 "B" "t1" (some 90)]

/-- Two distinct fetched rows that share a listing id. -/
def dupIdPool : List Vacancy :=
  [mkListing 7 "A" "x" none, mkListing 7 "B" "y" none]

/-- A fetched row whose employer column is SQL NULL. -/
def nullEmployerListing : Vacancy :=
  { id := 9, employer := PyStr.null, title := PyStr.str "t", external_url := "u",
    salary_from_net := none, salary_to_net := none, salary_period_name := none,
    salary_frequency_name := none, schedule_name := none,
    experience_name := none }

/-- A row with an upper bound and a payment period but no frequency field. -/
def absentFrequencyListing : Vacancy :=
  { id := 1, employer := PyStr.str "A", title := PyStr.str "T",
    external_url := "u", salary_from_net := none, salary_to_net := some 100,
    salary_period_name := some "за месяц", salary_frequency_name := none,
    schedule_name := none, experience_name := none }

/-- A 4200-character title. -/
def longTitle : String := String.mk (List.replicate 4200 'a')

/-- A single listing whose title alone exceeds the 4096-character message
ceiling. -/
def oversizedListing : Vacancy :=
  { id := 1, employer := PyStr.str "A", title := PyStr.str longTitle,
    external_url := "u", salary_from_net := none, salary_to_net := some 100,
    salary_period_name := none, salary_frequency_name := none,
    schedule_name := none, experience_name := none }

/-- A city environment with one well-formed listing whose send fails. -/
def sendFailEnv : CityEnv :=
  { cityFound := true, name := "Москва", vacancies := [goodListing],
    sendOk := false, markOk := true }

/-- A city environment with one well-formed listing whose send succeeds and
whose mark update fails. -/
def markFailEnv : CityEnv :=
  { cityFound := true, name := "Москва", vacancies := [goodListing],
    sendOk := true, markOk := false }

/-- The per-city step of the publisher loop: the outcome of
`publish_city_vacancies` for the city, or `none` when the iteration body
raised. -/
def city_step (fuel : Nat) (raises : String → Bool) (envOf : String → CityEnv)
    (postedOf : String → List Int) (c : String) : Option (Bool × Nat) :=
  if raises c then none
  else some (publish_city_vacancies fuel (envOf c) (postedOf c)).1


/-- The final running count of pass 1 equals the initial count plus the
number of rows taken. -/
theorem pass1_count (target cap : Int) (data : List Vacancy) :
    ∀ (seen : List String) (ctr : String → Nat) (n : Nat),
      (pass1 target cap data seen ctr n).2.2
        = n + (pass1 target cap data seen ctr n).1.length := by
  induction data with
  | nil => intro seen ctr n; simp [pass1]
  | cons v rest ih =>
    intro seen ctr n
    simp only [pass1]
    by_cases hb : blankRow v = true
    · rw [if_pos hb]; exact ih seen ctr n
    · rw [if_neg hb]
      by_cases hs : vkey v ∈ seen
      · rw [if_pos hs]; exact ih seen ctr n
      · rw [if_neg hs]
        by_cases hc : cap ≤ (ctr (empOf v) : Int)
        · rw [if_pos hc]; exact ih seen ctr n
        · rw [if_neg hc]
          by_cases ht : target ≤ ((n + 1 : Nat) : Int)
          · rw [if_pos ht]; simp
          · rw [if_neg ht]
            simp only [List.length_cons]
            have h := ih (vkey v :: seen)
              (fun e => if e = empOf v then ctr (empOf v) + 1 else ctr e) (n + 1)
            omega

/-- The rows taken by pass 1 form a subsequence of the scanned rows. -/
theorem pass1_sublist (target cap : Int) (data : List Vacancy) :
    ∀ (seen : List String) (ctr : String → Nat) (n : Nat),
      (pass1 target cap data seen ctr n).1.Sublist data := by
  induction data with
  | nil => intro seen ctr n; simp [pass1]
  | cons v rest ih =>
    intro seen ctr n
    simp only [pass1]
    by_cases hb : blankRow v = true
    · rw [if_pos hb]; exact (ih seen ctr n).cons v
    · rw [if_neg hb]
      by_cases hs : vkey v ∈ seen
      · rw [if_pos hs]; exact (ih seen ctr n).cons v
      · rw [if_neg hs]
        by_cases hc : cap ≤ (ctr (empOf v) : Int)
        · rw [if_pos hc]; exact (ih seen ctr n).cons v
        · rw [if_neg hc]
          by_cases ht : target ≤ ((n + 1 : Nat) : Int)
          · rw [if_pos ht]; exact (List.nil_sublist rest).cons₂ v
          · rw [if_neg ht]
            exact (ih (vkey v :: seen)
              (fun e => if e = empOf v then ctr (empOf v) + 1 else ctr e)
              (n + 1)).cons₂ v

/-- While the running count is below the target, pass 1 never takes the
count past the target. -/
theorem pass1_le_target (target cap : Int) (data : List Vacancy) :
    ∀ (seen : List String) (ctr : String → Nat) (n : Nat),
      (n : Int) < target →
        (n : Int) + (pass1 target cap data seen ctr n).1.length ≤ target := by
  induction data with
  | nil => intro seen ctr n hn; simp [pass1]; omega
  | cons v rest ih =>
    intro seen ctr n hn
    simp only [pass1]
    by_cases hb : blankRow v = true
    · rw [if_pos hb]; exact ih seen ctr n hn
    · rw [if_neg hb]
      by_cases hs : vkey v ∈ seen
      · rw [if_pos hs]; exact ih seen ctr n hn
      · rw [if_neg hs]
        by_cases hc : cap ≤ (ctr (empOf v) : Int)
        · rw [if_pos hc]; exact ih seen ctr n hn
        · rw [if_neg hc]
          by_cases ht : target ≤ ((n + 1 : Nat) : Int)
          · rw [if_pos ht]
            simp only [List.length_cons, List.length_nil]
            push_cast at ht ⊢
            omega
          · rw [if_neg ht]
            simp only [List.length_cons]
            have h := ih (vkey v :: seen)
              (fun e => if e = empOf v then ctr (empOf v) + 1 else ctr e)
              (n + 1) (by push_cast at ht ⊢; omega)
            push_cast at h ⊢
            omega

/-- Once the next append would reach the target, pass 1 takes at most one
more row. -/
theorem pass1_le_one (target cap : Int) (data : List Vacancy) :
    ∀ (seen : List String) (ctr : String → Nat) (n : Nat),
      target ≤ (n : Int) + 1 →
        (pass1 target cap data seen ctr n).1.length ≤ 1 := by
  induction data with
  | nil => intro seen ctr n hn; simp [pass1]
  | cons v rest ih =>
    intro seen ctr n hn
    simp only [pass1]
    by_cases hb : blankRow v = true
    · rw [if_pos hb]; exact ih seen ctr n hn
    · rw [if_neg hb]
      by_cases hs : vkey v ∈ seen
      · rw [if_pos hs]; exact ih seen ctr n hn
      · rw [if_neg hs]
        by_cases hc : cap ≤ (ctr (empOf v) : Int)
        · rw [if_pos hc]; exact ih seen ctr n hn
        · rw [if_neg hc]
          by_cases ht : target ≤ ((n + 1 : Nat) : Int)
          · rw [if_pos ht]; simp
          · rw [if_neg ht]
            exfalso
            push_cast at ht hn
            omega

/-- Pass 1 only ever grows the seen-key list. -/
theorem pass1_seen_mono (target cap : Int) (data : List Vacancy) :
    ∀ (seen : List String) (ctr : String → Nat) (n : Nat) (s : String),
      s ∈ seen → s ∈ (pass1 target cap data seen ctr n).2.1 := by
  induction data with
  | nil => intro seen ctr n s hmem; simpa [pass1] using hmem
  | cons v rest ih =>
    intro seen ctr n s hmem
    simp only [pass1]
    by_cases hb : blankRow v = true
    · rw [if_pos hb]; exact ih seen ctr n s hmem
    · rw [if_neg hb]
      by_cases hs : vkey v ∈ seen
      · rw [if_pos hs]; exact ih seen ctr n s hmem
      · rw [if_neg hs]
        by_cases hc : cap ≤ (ctr (empOf v) : Int)
        · rw [if_pos hc]; exact ih seen ctr n s hmem
        · rw [if_neg hc]
          by_cases ht : target ≤ ((n + 1 : Nat) : Int)
          · rw [if_pos ht]; exact List.mem_cons_of_mem _ hmem
          · rw [if_neg ht]
            exact ih (vkey v :: seen)
              (fun e => if e = empOf v then ctr (empOf v) + 1 else ctr e)
              (n + 1) s (List.mem_cons_of_mem _ hmem)

/-- The key of every row taken by pass 1 is in the final seen-key list. -/
theorem pass1_taken_in_seen (target cap : Int) (data : List Vacancy) :
    ∀ (seen : List String) (ctr : String → Nat) (n : Nat) (u : Vacancy),
      u ∈ (pass1 target cap data seen ctr n).1 →
        vkey u ∈ (pass1 target cap data seen ctr n).2.1 := by
  induction data with
  | nil => intro seen ctr n u hmem; simp [pass1] at hmem
  | cons v rest ih =>
    intro seen ctr n u hmem
    simp only [pass1] at hmem ⊢
    by_cases hb : blankRow v = true
    · rw [if_pos hb] at hmem ⊢; exact ih seen ctr n u hmem
    · rw [if_neg hb] at hmem ⊢
      by_cases hs : vkey v ∈ seen
      · rw [if_pos hs] at hmem ⊢; exact ih seen ctr n u hmem
      · rw [if_neg hs] at hmem ⊢
        by_cases hc : cap ≤ (ctr (empOf v) : Int)
        · rw [if_pos hc] at hmem ⊢; exact ih seen ctr n u hmem
        · rw [if_neg hc] at hmem ⊢
          by_cases ht : target ≤ ((n + 1 : Nat) : Int)
          · rw [if_pos ht] at hmem ⊢
            simp only [List.mem_singleton] at hmem
            subst hmem
            exact List.mem_cons_self _ _
          · rw [if_neg ht] at hmem ⊢
            rcases List.mem_cons.mp hmem with h | h
            · subst h
              exact pass1_seen_mono target cap rest _ _ _ _
                (List.mem_cons_self _ _)
            · exact ih (vkey v :: seen)
                (fun e => if e = empOf v then ctr (empOf v) + 1 else ctr e)
                (n + 1) u h

/-- The key of every row taken by pass 1 is absent from the initial
seen-key list. -/
theorem pass1_fresh (target cap : Int) (data : List Vacancy) :
    ∀ (seen : List String) (ctr : String → Nat) (n : Nat) (u : Vacancy),
      u ∈ (pass1 target cap data seen ctr n).1 → vkey u ∉ seen := by
  induction data with
  | nil => intro seen ctr n u hmem; simp [pass1] at hmem
  | cons v rest ih =>
    intro seen ctr n u hmem
    simp only [pass1] at hmem
    by_cases hb : blankRow v = true
    · rw [if_pos hb] at hmem; exact ih seen ctr n u hmem
    · rw [if_neg hb] at hmem
      by_cases hs : vkey v ∈ seen
      · rw [if_pos hs] at hmem; exact ih seen ctr n u hmem
      · rw [if_neg hs] at hmem
        by_cases hc : cap ≤ (ctr (empOf v) : Int)
        · rw [if_pos hc] at hmem; exact ih seen ctr n u hmem
        · rw [if_neg hc] at hmem
          by_cases ht : target ≤ ((n + 1 : Nat) : Int)
          · rw [if_pos ht] at hmem
            simp only [List.mem_singleton] at hmem
            subst hmem
            exact hs
          · rw [if_neg ht] at hmem
            rcases List.mem_cons.mp hmem with h | h
            · subst h; exact hs
            · have h2 := ih (vkey v :: seen)
                (fun e => if e = empOf v then ctr (empOf v) + 1 else ctr e)
                (n + 1) u h
              intro hin
              exact h2 (List.mem_cons_of_mem _ hin)

/-- No two rows taken by pass 1 share a duplicate key. -/
theorem pass1_pairwise (target cap : Int) (data : List Vacancy) :
    ∀ (seen : List String) (ctr : String → Nat) (n : Nat),
      (pass1 target cap data seen ctr n).1.Pairwise
        (fun a b => vkey a ≠ vkey b) := by
  induction data with
  | nil => intro seen ctr n; simp [pass1]
  | cons v rest ih =>
    intro seen ctr n
    simp only [pass1]
    by_cases hb : blankRow v = true
    · rw [if_pos hb]; exact ih seen ctr n
    · rw [if_neg hb]
      by_cases hs : vkey v ∈ seen
      · rw [if_pos hs]; exact ih seen ctr n
      · rw [if_neg hs]
        by_cases hc : cap ≤ (ctr (empOf v) : Int)
        · rw [if_pos hc]; exact ih seen ctr n
        · rw [if_neg hc]
          by_cases ht : target ≤ ((n + 1 : Nat) : Int)
          · rw [if_pos ht]; simp
          · rw [if_neg ht]
            refine List.Pairwise.cons ?_ (ih (vkey v :: seen)
              (fun e => if e = empOf v then ctr (empOf v) + 1 else ctr e)
              (n + 1))
            intro b hb2
            have h2 := pass1_fresh target cap rest
              (vkey v :: seen)
              (fun e => if e = empOf v then ctr (empOf v) + 1 else ctr e)
              (n + 1) b hb2
            intro heq
            exact h2 (heq ▸ List.mem_cons_self _ _)

/-- Every row taken by pass 1 passed the blank-row filter. -/
theorem pass1_nonblank (target cap : Int) (data : List Vacancy) :
    ∀ (seen : List String) (ctr : String → Nat) (n : Nat) (u : Vacancy),
      u ∈ (pass1 target cap data seen ctr n).1 → blankRow u = false := by
  induction data with
  | nil => intro seen ctr n u hmem; simp [pass1] at hmem
  | cons v rest ih =>
    intro seen ctr n u hmem
    simp only [pass1] at hmem
    by_cases hb : blankRow v = true
    · rw [if_pos hb] at hmem; exact ih seen ctr n u hmem
    · rw [if_neg hb] at hmem
      by_cases hs : vkey v ∈ seen
      · rw [if_pos hs] at hmem; exact ih seen ctr n u hmem
      · rw [if_neg hs] at hmem
        by_cases hc : cap ≤ (ctr (empOf v) : Int)
        · rw [if_pos hc] at hmem; exact ih seen ctr n u hmem
        · rw [if_neg hc] at hmem
          by_cases ht : target ≤ ((n + 1 : Nat) : Int)
          · rw [if_pos ht] at hmem
            simp only [List.mem_singleton] at hmem
            subst hmem
            exact Bool.not_eq_true _ |>.mp hb
          · rw [if_neg ht] at hmem
            rcases List.mem_cons.mp hmem with h | h
            · subst h; exact Bool.not_eq_true _ |>.mp hb
            · exact ih (vkey v :: seen)
                (fun e => if e = empOf v then ctr (empOf v) + 1 else ctr e)
                (n + 1) u h

/-- The rows taken by pass 2 form a subsequence of the rescanned rows. -/
theorem pass2_sublist (target : Int) (data : List Vacancy) :
    ∀ (seen : List String) (n : Nat),
      (pass2 target data seen n).Sublist data := by
  induction data with
  | nil => intro seen n; simp [pass2]
  | cons v rest ih =>
    intro seen n
    simp only [pass2]
    by_cases hb : blankRow v = true
    · rw [if_pos hb]; exact (ih seen n).cons v
    · rw [if_neg hb]
      by_cases hs : vkey v ∈ seen
      · rw [if_pos hs]; exact (ih seen n).cons v
      · rw [if_neg hs]
        by_cases ht : target ≤ ((n + 1 : Nat) : Int)
        · rw [if_pos ht]; exact (List.nil_sublist rest).cons₂ v
        · rw [if_neg ht]; exact (ih (vkey v :: seen) (n + 1)).cons₂ v

/-- While the running count is below the target, pass 2 never takes the
count past the target. -/
theorem pass2_le_target (target : Int) (data : List Vacancy) :
    ∀ (seen : List String) (n : Nat),
      (n : Int) < target →
        (n : Int) + (pass2 target data seen n).length ≤ target := by
  induction data with
  | nil => intro seen n hn; simp [pass2]; omega
  | cons v rest ih =>
    intro seen n hn
    simp only [pass2]
    by_cases hb : blankRow v = true
    · rw [if_pos hb]; exact ih seen n hn
    · rw [if_neg hb]
      by_cases hs : vkey v ∈ seen
      · rw [if_pos hs]; exact ih seen n hn
      · rw [if_neg hs]
        by_cases ht : target ≤ ((n + 1 : Nat) : Int)
        · rw [if_pos ht]
          simp only [List.length_singleton]
          push_cast at ht ⊢
          omega
        · rw [if_neg ht]
          simp only [List.length_cons]
          have h := ih (vkey v :: seen) (n + 1) (by push_cast at ht ⊢; omega)
          push_cast at h ⊢
          omega

/-- The key of every row taken by pass 2 is absent from the initial
seen-key list. -/
theorem pass2_fresh (target : Int) (data : List Vacancy) :
    ∀ (seen : List String) (n : Nat) (u : Vacancy),
      u ∈ pass2 target data seen n → vkey u ∉ seen := by
  induction data with
  | nil => intro seen n u hmem; simp [pass2] at hmem
  | cons v rest ih =>
    intro seen n u hmem
    simp only [pass2] at hmem
    by_cases hb : blankRow v = true
    · rw [if_pos hb] at hmem; exact ih seen n u hmem
    · rw [if_neg hb] at hmem
      by_cases hs : vkey v ∈ seen
      · rw [if_pos hs] at hmem; exact ih seen n u hmem
      · rw [if_neg hs] at hmem
        by_cases ht : target ≤ ((n + 1 : Nat) : Int)
        · rw [if_pos ht] at hmem
          simp only [List.mem_singleton] at hmem
          subst hmem
          exact hs
        · rw [if_neg ht] at hmem
          rcases List.mem_cons.mp hmem with h | h
          · subst h; exact hs
          · have h2 := ih (vkey v :: seen) (n + 1) u h
            intro hin
            exact h2 (List.mem_cons_of_mem _ hin)

/-- No two rows taken by pass 2 share a duplicate key. -/
theorem pass2_pairwise (target : Int) (data : List Vacancy) :
    ∀ (seen : List String) (n : Nat),
      (pass2 target data seen n).Pairwise (fun a b => vkey a ≠ vkey b) := by
  induction data with
  | nil => intro seen n; simp [pass2]
  | cons v rest ih =>
    intro seen n
    simp only [pass2]
    by_cases hb : blankRow v = true
    · rw [if_pos hb]; exact ih seen n
    · rw [if_neg hb]
      by_cases hs : vkey v ∈ seen
      · rw [if_pos hs]; exact ih seen n
      · rw [if_neg hs]
        by_cases ht : target ≤ ((n + 1 : Nat) : Int)
        · rw [if_pos ht]; simp
        · rw [if_neg ht]
          refine List.Pairwise.cons ?_ (ih (vkey v :: seen) (n + 1))
          intro b hb2
          have h2 := pass2_fresh target rest (vkey v :: seen) (n + 1) b hb2
          intro heq
          exact h2 (heq ▸ List.mem_cons_self _ _)

/-- Every row taken by pass 2 passed the blank-row filter. -/
theorem pass2_nonblank (target : Int) (data : List Vacancy) :
    ∀ (seen : List String) (n : Nat) (u : Vacancy),
      u ∈ pass2 target data seen n → blankRow u = false := by
  induction data with
  | nil => intro seen n u hmem; simp [pass2] at hmem
  | cons v rest ih =>
    intro seen n u hmem
    simp only [pass2] at hmem
    by_cases hb : blankRow v = true
    · rw [if_pos hb] at hmem; exact ih seen n u hmem
    · rw [if_neg hb] at hmem
      by_cases hs : vkey v ∈ seen
      · rw [if_pos hs] at hmem; exact ih seen n u hmem
      · rw [if_neg hs] at hmem
        by_cases ht : target ≤ ((n + 1 : Nat) : Int)
        · rw [if_pos ht] at hmem
          simp only [List.mem_singleton] at hmem
          subst hmem
          exact Bool.not_eq_true _ |>.mp hb
        · rw [if_neg ht] at hmem
          rcases List.mem_cons.mp hmem with h | h
          · subst h; exact Bool.not_eq_true _ |>.mp hb
          · exact ih (vkey v :: seen) (n + 1) u h

/-- Unfolding equation of the selector (the local `filtered_vacancies`
binding written out). -/
theorem gvfp_eq (data : List Vacancy) (target cap : Int) :
    get_vacancies_for_publication data target cap =
      if data.isEmpty then []
      else if ((pass1 target cap data [] (fun _ => 0) 0).2.2 : Int) < target ∧
          (pass1 target cap data [] (fun _ => 0) 0).2.2 < data.length then
        (pass1 target cap data [] (fun _ => 0) 0).1 ++
          pass2 target
            (data.drop (pass1 target cap data [] (fun _ => 0) 0).2.2)
            (pass1 target cap data [] (fun _ => 0) 0).2.1
            (pass1 target cap data [] (fun _ => 0) 0).2.2
      else (pass1 target cap data [] (fun _ => 0) 0).1 := rfl

/-- C2 (amended): for every fetched pool and every target of at least one,
the selection holds at most `min(N, T)` listings; the bound is an upper
bound only, since blank rows, duplicate keys and the second pass's index
offset can drop eligible rows. -/
theorem c2_selection_boundedness (data : List Vacancy) (target cap : Int)
    (h : 1 ≤ target) :
    ((get_vacancies_for_publication data target cap).length : Int) ≤
      min (data.length : Int) target := by
  rw [gvfp_eq]
  by_cases hd : data.isEmpty
  · rw [if_pos hd]
    simp only [List.length_nil]
    have : (0 : Int) ≤ (data.length : Int) := Int.natCast_nonneg _
    omega
  · rw [if_neg hd]
    have hk := pass1_count target cap data [] (fun _ => 0) 0
    have hsub := (pass1_sublist target cap data [] (fun _ => 0) 0).length_le
    by_cases hc : ((pass1 target cap data [] (fun _ => 0) 0).2.2 : Int) < target ∧
        (pass1 target cap data [] (fun _ => 0) 0).2.2 < data.length
    · rw [if_pos hc]
      have h2 := pass2_le_target target
        (data.drop (pass1 target cap data [] (fun _ => 0) 0).2.2)
        (pass1 target cap data [] (fun _ => 0) 0).2.1
        (pass1 target cap data [] (fun _ => 0) 0).2.2 hc.1
      have h3 := (pass2_sublist target
        (data.drop (pass1 target cap data [] (fun _ => 0) 0).2.2)
        (pass1 target cap data [] (fun _ => 0) 0).2.1
        (pass1 target cap data [] (fun _ => 0) 0).2.2).length_le
      simp only [List.length_append, List.length_drop] at *
      push_cast at *
      omega
    · rw [if_neg hc]
      have h1 := pass1_le_target target cap data [] (fun _ => 0) 0
        (by push_cast; omega)
      push_cast at *
      omega

/-- C2 counterexample: a one-row pool whose employer is blank yields an
empty selection at target 1, so the selection size is not `min(N, T)`. -/
theorem c2_counterexample :
    (get_vacancies_for_publication [blankEmployerListing] 1 2).length ≠
      min [blankEmployerListing].length 1 := by decide

/-- C2 witness: a well-formed one-row pool at target 1 meets the amended
bound. -/
theorem c2_witness :
    (1 : Int) ≤ 1 ∧
      ((get_vacancies_for_publication [goodListing] 1 2).length : Int) ≤
        min ([goodListing].length : Int) 1 :=
  ⟨le_refl 1, c2_selection_boundedness [goodListing] 1 2 (le_refl 1)⟩

/-- C6 (amended): when the fetched rows are ordered salary-first descending
and the first pass serves the whole selection (the second pass does not
run), the selection keeps salary-bearing rows first with non-increasing
upper bounds; the second pass can break this order. -/
theorem c6_salary_order_single_pass (data : List Vacancy) (target cap : Int)
    (hsorted : data.Pairwise (fun a b => salaryOrderB a b = true))
    (hnp : ¬ (((pass1 target cap data [] (fun _ => 0) 0).2.2 : Int) < target ∧
        (pass1 target cap data [] (fun _ => 0) 0).2.2 < data.length)) :
    (get_vacancies_for_publication data target cap).Pairwise
      (fun a b => salaryOrderB a b = true) := by
  rw [gvfp_eq]
  by_cases hd : data.isEmpty
  · rw [if_pos hd]; simp
  · rw [if_neg hd, if_neg hnp]
    exact List.Pairwise.sublist
      (pass1_sublist target cap data [] (fun _ => 0) 0) hsorted

/-- C6 counterexample: a five-row pool sorted descending by salary on which
the selection comes out with upper bounds 100, 90, 60, 70 — the second pass
appends a higher-paid row after a lower-paid one. -/
theorem c6_counterexample :
    sortedPool5.Pairwise (fun a b => salaryOrderB a b = true) ∧
      (get_vacancies_for_publication sortedPool5 10 2).map
          (fun v => v.salary_to_net) =
        [some 100, some 90, some 60, some 70] ∧
      ¬ (get_vacancies_for_publication sortedPool5 10 2).Pairwise
          (fun a b => salaryOrderB a b = true) := by decide

/-- C6 witness: a sorted two-row pool fully served by the first pass keeps
the descending salary order. -/
theorem c6_witness :
    (get_vacancies_for_publication sortedPool2 2 2).Pairwise
      (fun a b => salaryOrderB a b = true) :=
  c6_salary_order_single_pass sortedPool2 2 2 (by decide) (by decide)

/-- C8 (amended): no two selected rows share the duplicate key
`employer + "_" + title[:60]`; in particular an identical row is never
selected twice, though distinct rows sharing an id can both be selected. -/
theorem c8_no_duplicate_keys (data : List Vacancy) (target cap : Int) :
    (get_vacancies_for_publication data target cap).Pairwise
      (fun a b => vkey a ≠ vkey b) := by
  rw [gvfp_eq]
  by_cases hd : data.isEmpty
  · rw [if_pos hd]; simp
  · rw [if_neg hd]
    by_cases hc : ((pass1 target cap data [] (fun _ => 0) 0).2.2 : Int) < target ∧
        (pass1 target cap data [] (fun _ => 0) 0).2.2 < data.length
    · rw [if_pos hc]
      rw [List.pairwise_append]
      refine ⟨pass1_pairwise target cap data [] (fun _ => 0) 0,
        pass2_pairwise target _ _ _, ?_⟩
      intro a ha b hb
      have hka := pass1_taken_in_seen target cap data [] (fun _ => 0) 0 a ha
      have hkb := pass2_fresh target
        (data.drop (pass1 target cap data [] (fun _ => 0) 0).2.2)
        (pass1 target cap data [] (fun _ => 0) 0).2.1
        (pass1 target cap data [] (fun _ => 0) 0).2.2 b hb
      intro heq
      exact hkb (heq ▸ hka)
    · rw [if_neg hc]
      exact pass1_pairwise target cap data [] (fun _ => 0) 0

/-- C8 counterexample: two distinct rows sharing id 7 are both selected, so
the selection repeats a listing id. -/
theorem c8_counterexample :
    (get_vacancies_for_publication dupIdPool 2 2).map (fun v => v.id) =
        [7, 7] ∧
      ¬ ((get_vacancies_for_publication dupIdPool 2 2).map
          (fun v => v.id)).Nodup := by decide

/-- C9 (amended): for a non-positive target the selector still accepts the
first valid row (the bound is checked only after an append), so the result
has at most one listing rather than none; an empty pool yields an empty
result without error. -/
theorem c9_nonpositive_target (data : List Vacancy) (target cap : Int)
    (h : target ≤ 0) :
    (get_vacancies_for_publication data target cap).length ≤ 1 ∧
      get_vacancies_for_publication ([] : List Vacancy) target cap = [] := by
  refine ⟨?_, rfl⟩
  rw [gvfp_eq]
  by_cases hd : data.isEmpty
  · rw [if_pos hd]; simp
  · rw [if_neg hd]
    have hcond : ¬ (((pass1 target cap data [] (fun _ => 0) 0).2.2 : Int) < target ∧
        (pass1 target cap data [] (fun _ => 0) 0).2.2 < data.length) := by
      intro hcc
      have h0 : (0 : Int) ≤ ((pass1 target cap data [] (fun _ => 0) 0).2.2 : Int) :=
        Int.natCast_nonneg _
      omega
    rw [if_neg hcond]
    exact pass1_le_one target cap data [] (fun _ => 0) 0 (by push_cast; omega)

/-- C9 counterexample: at target 0 a one-row valid pool yields that row,
not the empty result the claim requires. -/
theorem c9_counterexample :
    get_vacancies_for_publication [goodListing] 0 2 = [goodListing] ∧
      get_vacancies_for_publication [goodListing] 0 2 ≠ [] := by decide

/-- C9 witness: the amended bound at target 0 on a one-row pool. -/
theorem c9_witness :
    (0 : Int) ≤ 0 ∧
      (get_vacancies_for_publication [goodListing] 0 2).length ≤ 1 ∧
      get_vacancies_for_publication ([] : List Vacancy) 0 2 = [] :=
  ⟨le_refl 0, c9_nonpositive_target [goodListing] 0 2 (le_refl 0)⟩

/-- C10 (amended): every selected row has a non-empty stripped employer and
title under the Python string coercion; a SQL NULL coerces to the non-blank
string `"None"`, so NULL-employer rows are kept, not dropped. -/
theorem c10_selected_rows_nonblank (data : List Vacancy) (target cap : Int)
    (u : Vacancy) (hu : u ∈ get_vacancies_for_publication data target cap) :
    empOf u ≠ "" ∧ ttlOf u ≠ "" := by
  have hnb : blankRow u = false := by
    rw [gvfp_eq] at hu
    by_cases hd : data.isEmpty
    · rw [if_pos hd] at hu; simp at hu
    · rw [if_neg hd] at hu
      by_cases hc : ((pass1 target cap data [] (fun _ => 0) 0).2.2 : Int) < target ∧
          (pass1 target cap data [] (fun _ => 0) 0).2.2 < data.length
      · rw [if_pos hc] at hu
        rcases List.mem_append.mp hu with h | h
        · exact pass1_nonblank target cap data [] (fun _ => 0) 0 u h
        · exact pass2_nonblank target _ _ _ u h
      · rw [if_neg hc] at hu
        exact pass1_nonblank target cap data [] (fun _ => 0) 0 u hu
  simp only [blankRow, Bool.or_eq_false_iff, beq_eq_false_iff_ne] at hnb
  exact hnb

/-- C10 counterexample: a row whose employer column is SQL NULL coerces to
the string "None", survives the filter and is selected, where the claim
requires it to be dropped. -/
theorem c10_counterexample :
    nullEmployerListing.employer = PyStr.null ∧
      empOf nullEmployerListing = "None" ∧
      get_vacancies_for_publication [nullEmployerListing] 1 2 =
        [nullEmployerListing] := by decide

/-- C10 witness: the selected row of a one-row valid pool has non-blank
employer and title. -/
theorem c10_witness :
    goodListing ∈ get_vacancies_for_publication [goodListing] 1 2 ∧
      empOf goodListing ≠ "" ∧ ttlOf goodListing ≠ "" :=
  ⟨by decide, c10_selected_rows_nonblank [goodListing] 1 2 goodListing (by decide)⟩

/-- The period suffix of the implementation agrees with the amended case
analysis. -/
theorem periodSuffix_eq (v : Vacancy) : periodSuffix v = period_suffix_spec v := by
  unfold periodSuffix period_suffix_spec freq_suffix_spec
  cases hp : v.salary_period_name with
  | none => simp [optStrTruthy]
  | some p =>
    by_cases hpe : p = ""
    · subst hpe; simp [optStrTruthy]
    · cases hf : v.salary_frequency_name with
      | none => simp [optStrTruthy, hpe]
      | some f =>
        by_cases hfe : f = ""
        · subst hfe; simp [optStrTruthy, hpe]
        · by_cases hl : pyLower f = "не указано" <;>
            simp [optStrTruthy, hpe, hfe, hl]

/-- C7 (amended): `format_salary_display` realizes the corrected case
analysis `format_salary_display_spec`: a bound counts as present only when
non-null and non-zero; equal bounds give a single value, different bounds a
range, a single bound that bound, no bound the bare marker `"не указана"`;
the parenthesized qualifier appears only with a truthy period, and the
literal `", не указано"` is appended whenever the frequency field is null
or empty (absence does not emit nothing), while a frequency literally equal
to `"не указано"` up to case is suppressed. -/
theorem c7_salary_display_cases (v : Vacancy) :
    format_salary_display v = format_salary_display_spec v := by
  have hps := periodSuffix_eq v
  cases hf : v.salary_from_net with
  | none =>
    cases ht : v.salary_to_net with
    | none => simp [format_salary_display, format_salary_display_spec,
        optIntTruthy, hf, ht]
    | some t =>
      by_cases ht0 : t = 0 <;>
        simp [format_salary_display, format_salary_display_spec,
          optIntTruthy, hf, ht, ht0, hps]
  | some f =>
    cases ht : v.salary_to_net with
    | none =>
      by_cases hf0 : f = 0 <;>
        simp [format_salary_display, format_salary_display_spec,
          optIntTruthy, hf, ht, hf0, hps]
    | some t =>
      by_cases hf0 : f = 0 <;> by_cases ht0 : t = 0 <;>
        simp [format_salary_display, format_salary_display_spec,
          optIntTruthy, hf, ht, hf0, ht0, hps]

/-- C7 counterexample: with an upper bound, a period and a completely
absent frequency field, the code appends the literal `", не указано"`,
where the claim requires complete absence of the field to emit nothing. -/
theorem c7_counterexample :
    absentFrequencyListing.salary_frequency_name = none ∧
      format_salary_display absentFrequencyListing =
        "100 ₽ (за месяц, не указано)" ∧
      format_salary_display absentFrequencyListing ≠ "100 ₽ (за месяц)" := by
  decide

/-- A city that `publish_city_vacancies` reports as failed is always
reported with count 0. -/
theorem publish_failed_count_zero (fuel : Nat) (env : CityEnv)
    (posted : List Int) :
    (publish_city_vacancies fuel env posted).1.1 = false →
      (publish_city_vacancies fuel env posted).1.2 = 0 := by
  unfold publish_city_vacancies
  by_cases h1 : env.cityFound = false
  · rw [if_pos h1]; intro _; rfl
  · rw [if_neg h1]
    by_cases h2 : env.vacancies.isEmpty
    · rw [if_pos h2]; intro h; simp at h
    · rw [if_neg h2]
      cases hr : format_post_with_vacancies fuel env.vacancies env.name with
      | none => intro _; rfl
      | some p =>
        by_cases h3 : env.sendOk = false
        · intro _; simp [h3]
        · intro h; simp [h3] at h

/-- C3: over any run of the per-city loop, every configured city gets an
entry in the results, in order, with its own recorded count; the overall
success flag is the conjunction of all per-city outcomes being non-failed
(an empty or skipped city counts as success); and every failed city —
whether its iteration raised or `publish_city_vacancies` returned failure —
contributes count 0.  No city's failure prevents the remaining cities from
being attempted. -/
theorem c3_per_city_isolation (fuel : Nat) (cities : List String)
    (raises : String → Bool) (envOf : String → CityEnv)
    (postedOf : String → List Int) :
    (main_publisher_loop (city_step fuel raises envOf postedOf) cities).1
        = cities.map
            (fun c => (c, cityCount (city_step fuel raises envOf postedOf c))) ∧
      (main_publisher_loop (city_step fuel raises envOf postedOf) cities).2
        = cities.all (fun c => cityOK (city_step fuel raises envOf postedOf c)) ∧
      cities.all (fun c => cityOK (city_step fuel raises envOf postedOf c)
        || (cityCount (city_step fuel raises envOf postedOf c) == 0)) = true := by
  refine ⟨?_, ?_, ?_⟩
  · induction cities with
    | nil => rfl
    | cons c rest ih =>
      simp only [main_publisher_loop, List.map_cons]
      cases h : city_step fuel raises envOf postedOf c with
      | none => simp [h, cityCount, ih]
      | some sn => simp [h, cityCount, ih]
  · induction cities with
    | nil => rfl
    | cons c rest ih =>
      simp only [main_publisher_loop, List.all_cons]
      cases h : city_step fuel raises envOf postedOf c with
      | none => simp [h, cityOK, ih]
      | some sn => simp [h, cityOK, ih]
  · rw [List.all_eq_true]
    intro c _
    by_cases hraise : raises c = true
    · simp [city_step, hraise, cityOK, cityCount]
    · simp only [city_step, hraise, if_neg, Bool.false_eq_true,
        not_false_eq_true, if_false]
      by_cases hs : (publish_city_vacancies fuel (envOf c) (postedOf c)).1.1 = false
      · have h0 := publish_failed_count_zero fuel (envOf c) (postedOf c) hs
        simp [cityOK, cityCount, hs, h0]
      · simp only [Bool.not_eq_false] at hs
        simp [cityOK, hs]

/-- C4: when the send to the Messaging Gateway fails for a city whose
fetch produced listings and whose render returned, the city is reported
failed with count 0 and the posted-state is untouched — the mark update is
never reached, so every selected listing stays unposted. -/
theorem c4_send_failure_no_mutation (fuel : Nat) (env : CityEnv)
    (posted : List Int) (hfound : env.cityFound = true)
    (hvac : env.vacancies.isEmpty = false)
    (hrender : (format_post_with_vacancies fuel env.vacancies env.name).isSome
      = true)
    (hsend : env.sendOk = false) :
    publish_city_vacancies fuel env posted = ((false, 0), posted) := by
  unfold publish_city_vacancies
  rw [if_neg (by simp [hfound]), if_neg (by simp [hvac])]
  obtain ⟨p, hp⟩ := Option.isSome_iff_exists.mp hrender
  rw [hp]
  simp [hsend]

set_option maxRecDepth 20000 in
/-- C4 witness: one well-formed listing, failing send. -/
theorem c4_witness :
    publish_city_vacancies 1 sendFailEnv [] = ((false, 0), []) :=
  c4_send_failure_no_mutation 1 sendFailEnv [] rfl rfl (by decide) rfl

/-- C5: when the send succeeded and the batch mark update fails, the city
is still reported successful with the full published count and the
posted-state is simply left stale (the failure is only logged). -/
theorem c5_mark_failure_still_success (fuel : Nat) (env : CityEnv)
    (posted : List Int) (hfound : env.cityFound = true)
    (hvac : env.vacancies.isEmpty = false)
    (hrender : (format_post_with_vacancies fuel env.vacancies env.name).isSome
      = true)
    (hsend : env.sendOk = true) (hmark : env.markOk = false) :
    publish_city_vacancies fuel env posted
      = ((true, env.vacancies.length), posted) := by
  unfold publish_city_vacancies
  rw [if_neg (by simp [hfound]), if_neg (by simp [hvac])]
  obtain ⟨p, hp⟩ := Option.isSome_iff_exists.mp hrender
  rw [hp]
  have hne : (env.vacancies.map (fun v => v.id)).isEmpty = false := by
    cases hv : env.vacancies with
    | nil => rw [hv] at hvac; simp at hvac
    | cons a l => simp [hv]
  simp [hsend, mark_vacancies_as_posted, hne, hmark]

set_option maxRecDepth 20000 in
/-- C5 witness: one well-formed listing, successful send, failing mark. -/
theorem c5_witness :
    publish_city_vacancies 1 markFailEnv [] = ((true, 1), []) := by
  have h := c5_mark_failure_still_success 1 markFailEnv [] rfl rfl
    (by decide) rfl rfl
  simpa using h

/-- The assembled post is at least as long as the first title it embeds. -/
theorem title_length_le_assemble (v : Vacancy) (rest : List Vacancy)
    (city : String) :
    (pyCoerceStr v.title).length ≤ (assemble_post (v :: rest) city).length := by
  unfold assemble_post vacancy_sections vacancy_section
  simp only [String.length_append]
  omega

/-- The oversized fixture title has 4200 characters. -/
theorem longTitle_length : longTitle.length = 4200 := by
  unfold longTitle
  rw [String.length_mk, List.length_replicate]

/-- C1: on a single listing whose title alone exceeds the 4096-character
ceiling, the size guard of `format_post_with_vacancies` re-renders
`vacancies[:5]`, which for five or fewer entries is the same list, so the
recursion never makes progress: for every amount of fuel the render fails
to terminate (in Python, a `RecursionError` instead of the fatal
formatting error the claim requires). -/
theorem c1_render_nonterminating (fuel : Nat) :
    format_post_with_vacancies fuel [oversizedListing] "Москва" = none := by
  induction fuel with
  | zero =>
    unfold format_post_with_vacancies
    rw [if_neg (by decide)]
  | succ f ih =>
    unfold format_post_with_vacancies
    rw [if_neg (by decide)]
    have hlen : 4096 < (assemble_post [oversizedListing] "Москва").length := by
      have h1 := title_length_le_assemble oversizedListing [] "Москва"
      have h2 : (pyCoerceStr oversizedListing.title).length = 4200 := by
        show longTitle.length = 4200
        exact longTitle_length
      omega
    show (if 4096 < (assemble_post [oversizedListing] "Москва").length then
        format_post_with_vacancies f (List.take 5 [oversizedListing]) "Москва"
      else some (assemble_post [oversizedListing] "Москва", some referral_link))
        = none
    rw [if_pos hlen]
    exact ih
